import Mathlib

/-!
Verification development for the hhuTOSr kernel sources:
boot-time memory-map scanning and region arithmetic (`src/os/kernel/src/boot.rs`),
the syscall entry path (`src/os/kernel/src/syscall/syscall_dispatcher.rs`),
and thread stack preparation (`src/os/kernel/src/thread/thread.rs`).
-/

namespace HhuTosr

/-! ## Physical frame ranges (`PhysFrameRange` in boot.rs)

A `PhysFrameRange` is a half-open range of 4 KiB frames; we model the frame
addresses as natural numbers (`start` inclusive, `stop` exclusive; the Rust
field `end` is a Lean keyword, hence `stop`). -/

structure Region where
  start : Nat
  stop : Nat
deriving DecidableEq, Repr

/-- An address lies in a half-open region. -/
def Region.contains (r : Region) (a : Nat) : Prop :=
  r.start ≤ a ∧ a < r.stop

instance (r : Region) (a : Nat) : Decidable (r.contains a) := by
  unfold Region.contains; infer_instance

/-- A well-formed (non-reversed) half-open range. -/
def Region.wf (r : Region) : Prop := r.start ≤ r.stop

instance (r : Region) : Decidable r.wf := by
  unfold Region.wf; infer_instance

/-- The loop body of `cut_region` in boot.rs: the pieces pushed for one
`region` of the input list, given the `reserved_region`. -/
def cut_one (region : Region) (reserved_region : Region) : List Region :=
  if region.start < reserved_region.start ∧ reserved_region.start ≤ region.stop then
    -- Region starts below the reserved region
    if region.stop ≤ reserved_region.stop then
      -- Region starts below and ends inside the reserved region
      [⟨region.start, reserved_region.start⟩]
    else
      -- Region starts below and ends above the reserved region
      [⟨region.start, reserved_region.start⟩, ⟨reserved_region.stop, region.stop⟩]
  else if region.start ≤ reserved_region.stop ∧ reserved_region.start ≤ region.stop then
    -- Region starts within the reserved region
    if region.stop ≤ reserved_region.stop then
      -- Region starts within and ends within the reserved region
      []
    else
      -- Region starts within and ends above the reserved region
      [⟨reserved_region.stop, region.stop⟩]
  else
    -- Region does not interfere with the reserved region
    [region]

/-- `cut_region` from boot.rs: for each input region (in order) push the pieces
left after removing the reserved region. -/
def cut_region (regions : List Region) (reserved_region : Region) : List Region :=
  match regions with
  | [] => []
  | region :: rest => cut_one region reserved_region ++ cut_region rest reserved_region

@[simp]
theorem cut_region_nil (k : Region) : cut_region [] k = [] := rfl

@[simp]
theorem cut_region_cons (r : Region) (rs : List Region) (k : Region) :
    cut_region (r :: rs) k = cut_one r k ++ cut_region rs k := rfl

theorem cut_region_append (xs ys : List Region) (k : Region) :
    cut_region (xs ++ ys) k = cut_region xs k ++ cut_region ys k := by
  induction xs with
  | nil => simp
  | cons x xs ih => simp [ih]

/-- Some region of the list contains the address. -/
def covers (rs : List Region) (a : Nat) : Prop :=
  ∃ r ∈ rs, r.contains a

@[simp]
theorem covers_nil (a : Nat) : covers [] a ↔ False := by
  simp [covers]

@[simp]
theorem covers_cons (r : Region) (rs : List Region) (a : Nat) :
    covers (r :: rs) a ↔ r.contains a ∨ covers rs a := by
  simp [covers]

@[simp]
theorem covers_append (xs ys : List Region) (a : Nat) :
    covers (xs ++ ys) a ↔ covers xs a ∨ covers ys a := by
  simp [covers, or_and_right, exists_or]

/-- The pieces produced for one region cover exactly the region minus the
reserved range (for a well-formed reserved range). -/
theorem covers_cut_one (r k : Region) (hk : k.wf) (a : Nat) :
    covers (cut_one r k) a ↔ (r.contains a ∧ ¬ k.contains a) := by
  unfold Region.wf at hk
  unfold cut_one
  split_ifs <;>
    simp_all [covers, Region.contains] <;>
    omega

/-- `cut_region` covers exactly the input's addresses minus the reserved
range's addresses. -/
theorem covers_cut_region (rs : List Region) (k : Region) (hk : k.wf) (a : Nat) :
    covers (cut_region rs k) a ↔ (covers rs a ∧ ¬ k.contains a) := by
  induction rs with
  | nil => simp
  | cons r rest ih =>
    rw [cut_region_cons, covers_append, covers_cons, ih, covers_cut_one r k hk]
    tauto

/-- Every piece produced for one region stays within that region's bounds. -/
theorem cut_one_bounds (r k : Region) (hk : k.wf) :
    ∀ p ∈ cut_one r k, r.start ≤ p.start ∧ p.stop ≤ r.stop := by
  unfold Region.wf at hk
  unfold cut_one
  split_ifs <;> intro p hp <;> simp_all <;> obtain rfl | rfl := hp <;> simp <;> omega

/-- Addresses of a piece are addresses of its source region. -/
theorem cut_one_subset (r k : Region) (hk : k.wf) :
    ∀ p ∈ cut_one r k, ∀ a, p.contains a → r.contains a := by
  intro p hp a hpa
  have hb := cut_one_bounds r k hk p hp
  unfold Region.contains at hpa ⊢
  omega

/-- Two regions are disjoint as sets of addresses. -/
def regionDisjoint (r s : Region) : Prop :=
  ∀ a, ¬ (r.contains a ∧ s.contains a)

/-- A list of pairwise set-disjoint regions. -/
def pairwiseDisjoint (rs : List Region) : Prop :=
  rs.Pairwise regionDisjoint

/-- The pieces produced for a single region are pairwise disjoint. -/
theorem cut_one_pairwise (r k : Region) (hk : k.wf) :
    (cut_one r k).Pairwise regionDisjoint := by
  unfold Region.wf at hk
  unfold cut_one
  split_ifs <;>
    simp_all [List.pairwise_cons, regionDisjoint, Region.contains] <;>
    omega

/-- Every piece of `cut_region` is covered by some input region. -/
theorem cut_region_piece_source (rs : List Region) (k : Region) (hk : k.wf) :
    ∀ p ∈ cut_region rs k, ∃ r ∈ rs, ∀ a, p.contains a → r.contains a := by
  induction rs with
  | nil => simp
  | cons r rest ih =>
    intro p hp
    rw [cut_region_cons, List.mem_append] at hp
    rcases hp with hp | hp
    · exact ⟨r, List.mem_cons_self r rest, cut_one_subset r k hk p hp⟩
    · obtain ⟨s, hs, hsub⟩ := ih p hp
      exact ⟨s, List.mem_cons_of_mem r hs, hsub⟩

/-- Cutting a pairwise-disjoint list by a well-formed reserved range yields a
pairwise-disjoint list. -/
theorem cut_region_pairwise (rs : List Region) (k : Region) (hk : k.wf)
    (h : pairwiseDisjoint rs) : pairwiseDisjoint (cut_region rs k) := by
  induction rs with
  | nil => simpa [pairwiseDisjoint] using h
  | cons r rest ih =>
    rw [pairwiseDisjoint, List.pairwise_cons] at h
    obtain ⟨hr, hrest⟩ := h
    rw [pairwiseDisjoint, cut_region_cons, List.pairwise_append]
    refine ⟨cut_one_pairwise r k hk, ih hrest, ?_⟩
    intro p hp q hq
    obtain ⟨s, hs, hsub⟩ := cut_region_piece_source rest k hk q hq
    intro a ha
    exact hr s hs a ⟨cut_one_subset r k hk p hp a ha.1, hsub a ha.2⟩

set_option maxHeartbeats 4000000 in
/-- Cutting a single region by two disjoint well-formed reserved ranges, in
either order, yields the same list of pieces. -/
theorem cut_one_comm (r a b : Region) (ha : a.wf) (hb : b.wf)
    (hd : a.stop ≤ b.start ∨ b.stop ≤ a.start ∨ a.start = a.stop ∨ b.start = b.stop) :
    cut_region (cut_one r a) b = cut_region (cut_one r b) a := by
  unfold Region.wf at ha hb
  unfold cut_one
  split_ifs <;>
    simp only [cut_region_cons, cut_region_nil, cut_one, List.append_nil,
      List.cons_append, List.nil_append] <;>
    split_ifs <;>
    first
      | rfl
      | (exfalso; omega)
      | (simp only [List.cons_append, List.nil_append, List.append_nil,
          List.singleton_append, List.cons.injEq, Region.mk.injEq,
          and_true, true_and]
         omega)

/-- Cutting by two disjoint well-formed reserved ranges commutes. -/
theorem cut_region_comm (rs : List Region) (a b : Region) (ha : a.wf) (hb : b.wf)
    (hd : regionDisjoint a b) :
    cut_region (cut_region rs a) b = cut_region (cut_region rs b) a := by
  have hd' : a.stop ≤ b.start ∨ b.stop ≤ a.start ∨ a.start = a.stop ∨ b.start = b.stop := by
    have h1 := hd (max a.start b.start)
    unfold Region.wf at ha hb
    unfold Region.contains at h1
    omega
  induction rs with
  | nil => simp
  | cons r rest ih =>
    rw [cut_region_cons, cut_region_cons, cut_region_append, cut_region_append, ih]
    rw [cut_one_comm r a b ha hb hd']

/-! ## Memory-map scanners (boot.rs)

`scan_efi_memory_map`, `scan_efi_multiboot2_memory_map` and
`scan_multiboot2_memory_map` select a bootstrap-heap region among the usable
map entries and collect the usable entries into a list of frame ranges.
Fatal `panic!`/`expect`/`unwrap` outcomes are modelled by the non-`ok`
constructors of `ScanResult`. -/

/-- `uefi::table::boot::PAGE_SIZE`: 4 KiB pages/frames. -/
def PAGE_SIZE : Nat := 4096

/-- `INIT_HEAP_PAGES` in boot.rs. -/
def INIT_HEAP_PAGES : Nat := 0x400

/-- `PhysAddr::align_up(PAGE_SIZE)` on a natural address. -/
def align_up (addr : Nat) : Nat := ((addr + PAGE_SIZE - 1) / PAGE_SIZE) * PAGE_SIZE

/-- `PhysAddr::align_down(PAGE_SIZE)` on a natural address. -/
def align_down (addr : Nat) : Nat := (addr / PAGE_SIZE) * PAGE_SIZE

theorem page_size_dvd_align_up (a : Nat) : PAGE_SIZE ∣ align_up a :=
  dvd_mul_left PAGE_SIZE ((a + PAGE_SIZE - 1) / PAGE_SIZE)

theorem page_size_dvd_align_down (a : Nat) : PAGE_SIZE ∣ align_down a :=
  dvd_mul_left PAGE_SIZE (a / PAGE_SIZE)

/-- The UEFI memory types the scanners compare against (`uefi_raw`). -/
inductive EfiMemoryType where
  | CONVENTIONAL
  | LOADER_CODE
  | LOADER_DATA
  | BOOT_SERVICES_CODE
  | BOOT_SERVICES_DATA
  | OTHER
deriving DecidableEq, Repr

/-- A UEFI memory-map entry as used by the scanners (`ty`, `phys_start`,
`page_count`). -/
structure EfiMemoryDescriptor where
  ty : EfiMemoryType
  phys_start : Nat
  page_count : Nat
deriving DecidableEq, Repr

/-- `multiboot2::MemoryAreaType`. -/
inductive MemoryAreaType where
  | Available
  | Reserved
  | AcpiAvailable
  | ReservedHibernate
  | Defective
deriving DecidableEq, Repr

/-- A `multiboot2::MemoryArea` (base address, byte length, type). -/
structure MemoryArea where
  base_addr : Nat
  length : Nat
  typ : MemoryAreaType
deriving DecidableEq, Repr

def MemoryArea.start_address (a : MemoryArea) : Nat := a.base_addr

def MemoryArea.end_address (a : MemoryArea) : Nat := a.base_addr + a.length

def MemoryArea.size (a : MemoryArea) : Nat := a.length

/-- One step of Rust's `Iterator::min_by` (first minimum is kept). -/
def min_by_key_step {α : Type} (key : α → Nat) (acc : Option α) (x : α) : Option α :=
  match acc with
  | none => some x
  | some b => if key x < key b then some x else some b

/-- Rust's `iter.min_by(|a, b| key(a).cmp(&key(b)))`: the first element with
the least key, `none` on an empty iterator. -/
def min_by_key {α : Type} (key : α → Nat) (l : List α) : Option α :=
  l.foldl (min_by_key_step key) none

theorem min_by_key_go {α : Type} (key : α → Nat) :
    ∀ (l : List α) (b : α),
      ∃ c, l.foldl (min_by_key_step key) (some b) = some c ∧
        (c ∈ l ∨ c = b) ∧ key c ≤ key b ∧ ∀ x ∈ l, key c ≤ key x := by
  intro l
  induction l with
  | nil =>
    intro b
    exact ⟨b, rfl, Or.inr rfl, le_refl _, by simp⟩
  | cons x xs ih =>
    intro b
    simp only [List.foldl_cons, min_by_key_step]
    by_cases hx : key x < key b
    · rw [if_pos hx]
      obtain ⟨c, hc, hmem, hle, hall⟩ := ih x
      refine ⟨c, hc, ?_, by omega, ?_⟩
      · rcases hmem with h | h
        · exact Or.inl (List.mem_cons_of_mem x h)
        · exact Or.inl (h ▸ List.mem_cons_self x xs)
      · intro y hy
        rcases List.mem_cons.mp hy with rfl | hy
        · exact hle
        · exact hall y hy
    · rw [if_neg hx]
      obtain ⟨c, hc, hmem, hle, hall⟩ := ih b
      refine ⟨c, hc, ?_, hle, ?_⟩
      · rcases hmem with h | h
        · exact Or.inl (List.mem_cons_of_mem x h)
        · exact Or.inr h
      · intro y hy
        rcases List.mem_cons.mp hy with rfl | hy
        · omega
        · exact hall y hy

theorem min_by_key_eq_none_iff {α : Type} (key : α → Nat) (l : List α) :
    min_by_key key l = none ↔ l = [] := by
  cases l with
  | nil => simp [min_by_key]
  | cons x xs =>
    simp only [min_by_key, List.foldl_cons, min_by_key_step]
    obtain ⟨c, hc, -, -, -⟩ := min_by_key_go key xs x
    simp [hc]

theorem min_by_key_eq_some {α : Type} (key : α → Nat) (l : List α) (a : α)
    (h : min_by_key key l = some a) : a ∈ l ∧ ∀ b ∈ l, key a ≤ key b := by
  cases l with
  | nil => simp [min_by_key] at h
  | cons x xs =>
    simp only [min_by_key, List.foldl_cons, min_by_key_step] at h
    obtain ⟨c, hc, hmem, hle, hall⟩ := min_by_key_go key xs x
    rw [hc, Option.some.injEq] at h
    subst h
    constructor
    · rcases hmem with hm | hm
      · exact List.mem_cons_of_mem x hm
      · exact hm ▸ List.mem_cons_self x xs
    · intro b hb
      rcases List.mem_cons.mp hb with rfl | hb
      · exact hle
      · exact hall b hb

/-- Result of a memory-map scan: either the chosen heap region plus the list
of usable regions, or one of the fatal outcomes (`expect` on the heap search,
`unwrap` on an unaligned heap start address). -/
inductive ScanResult where
  | ok (heap_region : Region) (regions : List Region)
  | panicNoHeapRegion
  | panicHeapStartUnaligned
deriving DecidableEq, Repr

/-- The heap-candidate filter of `scan_efi_memory_map` /
`scan_efi_multiboot2_memory_map`: usable type, at least `INIT_HEAP_PAGES`
pages, and starting at or above the kernel image end. -/
def efi_heap_eligible (kernel_image_end : Nat) (a : EfiMemoryDescriptor) : Bool :=
  (a.ty == .CONVENTIONAL || a.ty == .LOADER_CODE || a.ty == .LOADER_DATA
      || a.ty == .BOOT_SERVICES_CODE || a.ty == .BOOT_SERVICES_DATA)
    && decide (INIT_HEAP_PAGES ≤ a.page_count)
    && decide (kernel_image_end ≤ a.phys_start)

/-- The usable-type filter of the EFI scanners' region loop. -/
def efi_usable (a : EfiMemoryDescriptor) : Bool :=
  a.ty == .CONVENTIONAL || a.ty == .LOADER_CODE || a.ty == .LOADER_DATA
    || a.ty == .BOOT_SERVICES_CODE || a.ty == .BOOT_SERVICES_DATA

/-- `scan_efi_memory_map` from boot.rs. The heap start is taken from the
chosen entry verbatim (`PhysFrame::from_start_address(..).unwrap()`, which
panics when unaligned); the pushed regions are
`[align_up(phys_start), align_up(phys_start) + page_count frames)`. -/
def scan_efi_memory_map (memory_map : List EfiMemoryDescriptor)
    (kernel_image_end : Nat) : ScanResult :=
  match min_by_key (fun a => a.phys_start)
      (memory_map.filter (efi_heap_eligible kernel_image_end)) with
  | none => .panicNoHeapRegion
  | some heap_area =>
    if heap_area.phys_start % PAGE_SIZE = 0 then
      ScanResult.ok
        ⟨heap_area.phys_start, heap_area.phys_start + INIT_HEAP_PAGES * PAGE_SIZE⟩
        ((memory_map.filter efi_usable).map
          (fun a => ⟨align_up a.phys_start, align_up a.phys_start + a.page_count * PAGE_SIZE⟩))
    else .panicHeapStartUnaligned

/-- `scan_efi_multiboot2_memory_map` from boot.rs: identical to
`scan_efi_memory_map` up to the map representation (`ty.0` comparisons). -/
def scan_efi_multiboot2_memory_map (memory_map : List EfiMemoryDescriptor)
    (kernel_image_end : Nat) : ScanResult :=
  match min_by_key (fun a => a.phys_start)
      (memory_map.filter (efi_heap_eligible kernel_image_end)) with
  | none => .panicNoHeapRegion
  | some heap_area =>
    if heap_area.phys_start % PAGE_SIZE = 0 then
      ScanResult.ok
        ⟨heap_area.phys_start, heap_area.phys_start + INIT_HEAP_PAGES * PAGE_SIZE⟩
        ((memory_map.filter efi_usable).map
          (fun a => ⟨align_up a.phys_start, align_up a.phys_start + a.page_count * PAGE_SIZE⟩))
    else .panicHeapStartUnaligned

/-- The heap-candidate filter of `scan_multiboot2_memory_map`: Available,
`size() / PAGE_SIZE ≥ INIT_HEAP_PAGES`, start at or above the kernel end. -/
def mb2_heap_eligible (kernel_image_end : Nat) (a : MemoryArea) : Bool :=
  (a.typ == .Available)
    && decide (INIT_HEAP_PAGES ≤ a.size / PAGE_SIZE)
    && decide (kernel_image_end ≤ a.start_address)

/-- `scan_multiboot2_memory_map` from boot.rs. The heap start is the chosen
entry's start aligned up; the pushed regions are
`[align_up(start_address), align_down(end_address))`. -/
def scan_multiboot2_memory_map (memory_map : List MemoryArea)
    (kernel_image_end : Nat) : ScanResult :=
  match min_by_key (fun a => a.start_address)
      (memory_map.filter (mb2_heap_eligible kernel_image_end)) with
  | none => .panicNoHeapRegion
  | some heap_area =>
    ScanResult.ok
      ⟨align_up heap_area.start_address,
        align_up heap_area.start_address + INIT_HEAP_PAGES * PAGE_SIZE⟩
      ((memory_map.filter (fun a => a.typ == .Available)).map
        (fun a => ⟨align_up a.start_address, align_down a.end_address⟩))

/-- The memory map of the single-usable-region boot scenario: one Available
entry `[0x100000, 0x10000000)`. -/
def c3_memory_map : List MemoryArea :=
  [⟨0x100000, 0xFF00000, MemoryAreaType.Available⟩]

/-- The map used to exercise the rounding behaviour of the multiboot2
scanner: a well-aligned heap-capable entry plus a small unaligned entry
`[0x10000100, 0x10000200)` whose rounding yields a reversed (empty) range. -/
def c6_mb2_map : List MemoryArea :=
  [⟨0x200000, 0x400000, MemoryAreaType.Available⟩,
   ⟨0x10000100, 0x100, MemoryAreaType.Available⟩]

/-- The corresponding map for the EFI scanner: the small entry is one page at
the unaligned address `0x10000100`. -/
def c6_efi_map : List EfiMemoryDescriptor :=
  [⟨EfiMemoryType.CONVENTIONAL, 0x200000, 0x400⟩,
   ⟨EfiMemoryType.CONVENTIONAL, 0x10000100, 1⟩]

/-- A map on which the EFI scanner succeeds: one CONVENTIONAL entry of
exactly `INIT_HEAP_PAGES` pages at `0x100000`. -/
def c5_efi_map : List EfiMemoryDescriptor :=
  [⟨EfiMemoryType.CONVENTIONAL, 0x100000, 0x400⟩]

/-- A map on which the multiboot2 scanner succeeds: one Available entry
`[0x200000, 0x600000)`. -/
def c5_mb2_map : List MemoryArea :=
  [⟨0x200000, 0x400000, MemoryAreaType.Available⟩]

/-- Claim C5: the bootstrap heap scanner selects, among usable map entries
with page count ≥ INIT_HEAP_PAGES (1024) and start address ≥ the kernel image
end, the entry with the smallest start address, and sets the heap region to
the first 1024 frames of that entry; it panics with the message "Failed to
find memory region usable for kernel heap" if and only if no such entry
exists. (`panicNoHeapRegion` models exactly that panic message.) -/
theorem claim_C5 :
    ∀ (efi_map : List EfiMemoryDescriptor) (mb2_map : List MemoryArea)
      (kernel_image_end : Nat),
      (scan_efi_memory_map efi_map kernel_image_end = ScanResult.panicNoHeapRegion ↔
        efi_map.filter (efi_heap_eligible kernel_image_end) = []) ∧
      (∀ hp rs, scan_efi_memory_map efi_map kernel_image_end = ScanResult.ok hp rs →
        ∃ a ∈ efi_map, efi_heap_eligible kernel_image_end a = true ∧
          (∀ b ∈ efi_map, efi_heap_eligible kernel_image_end b = true →
            a.phys_start ≤ b.phys_start) ∧
          hp = ⟨a.phys_start, a.phys_start + INIT_HEAP_PAGES * PAGE_SIZE⟩) ∧
      (scan_multiboot2_memory_map mb2_map kernel_image_end = ScanResult.panicNoHeapRegion ↔
        mb2_map.filter (mb2_heap_eligible kernel_image_end) = []) ∧
      (∀ hp rs, scan_multiboot2_memory_map mb2_map kernel_image_end = ScanResult.ok hp rs →
        ∃ a ∈ mb2_map, mb2_heap_eligible kernel_image_end a = true ∧
          (∀ b ∈ mb2_map, mb2_heap_eligible kernel_image_end b = true →
            a.start_address ≤ b.start_address) ∧
          hp = ⟨align_up a.start_address,
                align_up a.start_address + INIT_HEAP_PAGES * PAGE_SIZE⟩) := by
  intro efi_map mb2_map k
  refine ⟨?_, ?_, ?_, ?_⟩
  · constructor
    · intro hscan
      unfold scan_efi_memory_map at hscan
      split at hscan
      · exact (min_by_key_eq_none_iff _ _).mp (by assumption)
      · split_ifs at hscan <;> simp at hscan
    · intro hfil
      unfold scan_efi_memory_map
      rw [(min_by_key_eq_none_iff (fun a => a.phys_start)
        (efi_map.filter (efi_heap_eligible k))).mpr hfil]
  · intro hp rs hscan
    unfold scan_efi_memory_map at hscan
    split at hscan
    · simp at hscan
    · rename_i a hmin
      split_ifs at hscan with hal
      obtain ⟨hmem, hbest⟩ := min_by_key_eq_some _ _ _ hmin
      rw [List.mem_filter] at hmem
      rw [ScanResult.ok.injEq] at hscan
      refine ⟨a, hmem.1, hmem.2, ?_, hscan.1.symm⟩
      intro b hb hbe
      exact hbest b (List.mem_filter.mpr ⟨hb, hbe⟩)
  · constructor
    · intro hscan
      unfold scan_multiboot2_memory_map at hscan
      split at hscan
      · exact (min_by_key_eq_none_iff _ _).mp (by assumption)
      · simp at hscan
    · intro hfil
      unfold scan_multiboot2_memory_map
      rw [(min_by_key_eq_none_iff (fun a => a.start_address)
        (mb2_map.filter (mb2_heap_eligible k))).mpr hfil]
  · intro hp rs hscan
    unfold scan_multiboot2_memory_map at hscan
    split at hscan
    · simp at hscan
    · rename_i a hmin
      obtain ⟨hmem, hbest⟩ := min_by_key_eq_some _ _ _ hmin
      rw [List.mem_filter] at hmem
      rw [ScanResult.ok.injEq] at hscan
      refine ⟨a, hmem.1, hmem.2, ?_, hscan.1.symm⟩
      intro b hb hbe
      exact hbest b (List.mem_filter.mpr ⟨hb, hbe⟩)

/-- Witness for C5: on concrete maps with a single eligible entry the chosen
entry is that entry and the heap region is its first 1024 frames. -/
theorem claim_C5_witness :
    (∃ a ∈ c5_efi_map, efi_heap_eligible 0 a = true ∧
        (∀ b ∈ c5_efi_map, efi_heap_eligible 0 b = true →
          a.phys_start ≤ b.phys_start) ∧
        (⟨0x100000, 0x500000⟩ : Region) =
          ⟨a.phys_start, a.phys_start + INIT_HEAP_PAGES * PAGE_SIZE⟩) ∧
    (∃ a ∈ c5_mb2_map, mb2_heap_eligible 0 a = true ∧
        (∀ b ∈ c5_mb2_map, mb2_heap_eligible 0 b = true →
          a.start_address ≤ b.start_address) ∧
        (⟨0x200000, 0x600000⟩ : Region) =
          ⟨align_up a.start_address,
            align_up a.start_address + INIT_HEAP_PAGES * PAGE_SIZE⟩) :=
  ⟨(claim_C5 c5_efi_map c5_mb2_map 0).2.1
      ⟨0x100000, 0x500000⟩ [⟨0x100000, 0x500000⟩] (by decide),
   (claim_C5 c5_efi_map c5_mb2_map 0).2.2.2
      ⟨0x200000, 0x600000⟩ [⟨0x200000, 0x600000⟩] (by decide)⟩

/-- Counterexample for C3: on the memory map with the single usable entry
`[0x100000, 0x10000000)` and kernel image end `0x200000`, the multiboot2
scanner does not select the heap `[0x200000, 0x600000)` (it finds no entry
whose start address is at or above the kernel image end and panics). -/
theorem claim_C3_counterexample :
    scan_multiboot2_memory_map c3_memory_map 0x200000 ≠
      ScanResult.ok ⟨0x200000, 0x600000⟩ [⟨0x100000, 0x10000000⟩] := by
  decide

/-- Claim C3 (amended): given a memory map with exactly one usable entry
`[0x100000, 0x10000000)` and kernel image `[0x100000, 0x200000)`, the
boot-time scan finds no usable entry whose start address is at or above the
kernel image end (the only entry starts at `0x100000 < 0x200000`), so it
panics with "Failed to find memory region usable for kernel heap"; no
bootstrap heap and no final region list are produced. -/
theorem claim_C3 :
    scan_multiboot2_memory_map c3_memory_map 0x200000 =
      ScanResult.panicNoHeapRegion := by
  decide

/-- Counterexample for C6: the multiboot2 scanner keeps the reversed (empty)
range produced by rounding the entry `[0x10000100, 0x10000200)` instead of
dropping it, and the EFI scanner's range for the one-page entry at
`0x10000100` ends at `align_up(start) + pages` instead of the entry's end
address rounded down. -/
theorem claim_C6_counterexample :
    scan_multiboot2_memory_map c6_mb2_map 0 =
      ScanResult.ok ⟨0x200000, 0x600000⟩
        [⟨0x200000, 0x600000⟩, ⟨0x10001000, 0x10000000⟩] ∧
    ¬ Region.wf ⟨0x10001000, 0x10000000⟩ ∧
    scan_efi_memory_map c6_efi_map 0 =
      ScanResult.ok ⟨0x200000, 0x600000⟩
        [⟨0x200000, 0x600000⟩, ⟨0x10001000, 0x10002000⟩] ∧
    align_down ((0x10000100 : Nat) + 1 * PAGE_SIZE) ≠ 0x10002000 := by
  refine ⟨by decide, by decide, by decide, by decide⟩

/-- Claim C6 (amended): every range returned by each scanner has its start
equal to the source entry's start address rounded up to a frame boundary;
the multiboot2 scanner's range ends at the entry's end address rounded down,
while the EFI scanners' ranges end at the rounded-up start plus the entry's
page count (the end address is not rounded down); all returned ranges are
frame-aligned; and no entry is ever dropped — entries whose rounding yields
an empty (or reversed) range are still pushed onto the returned list. -/
theorem claim_C6 :
    ∀ (efi_map : List EfiMemoryDescriptor) (mb2_map : List MemoryArea)
      (kernel_image_end : Nat) (hp : Region) (rs : List Region),
      (scan_efi_memory_map efi_map kernel_image_end = ScanResult.ok hp rs →
        rs = (efi_map.filter efi_usable).map
            (fun a => ⟨align_up a.phys_start,
                       align_up a.phys_start + a.page_count * PAGE_SIZE⟩) ∧
        ∀ p ∈ rs, PAGE_SIZE ∣ p.start ∧ PAGE_SIZE ∣ p.stop) ∧
      (scan_efi_multiboot2_memory_map efi_map kernel_image_end = ScanResult.ok hp rs →
        rs = (efi_map.filter efi_usable).map
            (fun a => ⟨align_up a.phys_start,
                       align_up a.phys_start + a.page_count * PAGE_SIZE⟩) ∧
        ∀ p ∈ rs, PAGE_SIZE ∣ p.start ∧ PAGE_SIZE ∣ p.stop) ∧
      (scan_multiboot2_memory_map mb2_map kernel_image_end = ScanResult.ok hp rs →
        rs = (mb2_map.filter (fun a => a.typ == MemoryAreaType.Available)).map
            (fun a => ⟨align_up a.start_address, align_down a.end_address⟩) ∧
        ∀ p ∈ rs, PAGE_SIZE ∣ p.start ∧ PAGE_SIZE ∣ p.stop) := by
  intro efi_map mb2_map k hp rs
  refine ⟨?_, ?_, ?_⟩
  · intro hscan
    unfold scan_efi_memory_map at hscan
    split at hscan
    · simp at hscan
    · split_ifs at hscan
      rw [ScanResult.ok.injEq] at hscan
      refine ⟨hscan.2.symm, ?_⟩
      intro p hp'
      rw [← hscan.2] at hp'
      rw [List.mem_map] at hp'
      obtain ⟨a, -, rfl⟩ := hp'
      exact ⟨page_size_dvd_align_up _,
        dvd_add (page_size_dvd_align_up _) (dvd_mul_left PAGE_SIZE _)⟩
  · intro hscan
    unfold scan_efi_multiboot2_memory_map at hscan
    split at hscan
    · simp at hscan
    · split_ifs at hscan
      rw [ScanResult.ok.injEq] at hscan
      refine ⟨hscan.2.symm, ?_⟩
      intro p hp'
      rw [← hscan.2] at hp'
      rw [List.mem_map] at hp'
      obtain ⟨a, -, rfl⟩ := hp'
      exact ⟨page_size_dvd_align_up _,
        dvd_add (page_size_dvd_align_up _) (dvd_mul_left PAGE_SIZE _)⟩
  · intro hscan
    unfold scan_multiboot2_memory_map at hscan
    split at hscan
    · simp at hscan
    · rw [ScanResult.ok.injEq] at hscan
      refine ⟨hscan.2.symm, ?_⟩
      intro p hp'
      rw [← hscan.2] at hp'
      rw [List.mem_map] at hp'
      obtain ⟨a, -, rfl⟩ := hp'
      exact ⟨page_size_dvd_align_up _, page_size_dvd_align_down _⟩

/-- Witness for C6: the multiboot2 scanner's output on the concrete map is
exactly the per-entry rounded ranges (including the kept empty one), all
frame-aligned. -/
theorem claim_C6_witness :
    ([⟨0x200000, 0x600000⟩, ⟨0x10001000, 0x10000000⟩] : List Region) =
        (c6_mb2_map.filter (fun a => a.typ == MemoryAreaType.Available)).map
          (fun a => ⟨align_up a.start_address, align_down a.end_address⟩) ∧
      ∀ p ∈ ([⟨0x200000, 0x600000⟩, ⟨0x10001000, 0x10000000⟩] : List Region),
        PAGE_SIZE ∣ p.start ∧ PAGE_SIZE ∣ p.stop :=
  (claim_C6 c6_efi_map c6_mb2_map 0 ⟨0x200000, 0x600000⟩
      [⟨0x200000, 0x600000⟩, ⟨0x10001000, 0x10000000⟩]).2.2 (by decide)

/-- Counterexample for C4: with an input list whose ranges overlap
(`[0, 0x2000)` and `[0x1000, 0x3000)`) and a reserved range away from both,
`cut_region` returns the two ranges unchanged, so its output is not pairwise
disjoint. -/
theorem claim_C4_counterexample :
    cut_region [⟨0, 0x2000⟩, ⟨0x1000, 0x3000⟩] ⟨0x5000, 0x6000⟩ =
      [⟨0, 0x2000⟩, ⟨0x1000, 0x3000⟩] ∧
    ¬ pairwiseDisjoint (cut_region [⟨0, 0x2000⟩, ⟨0x1000, 0x3000⟩] ⟨0x5000, 0x6000⟩) := by
  refine ⟨by decide, ?_⟩
  intro h
  rw [(by decide : cut_region [⟨0, 0x2000⟩, ⟨0x1000, 0x3000⟩] ⟨0x5000, 0x6000⟩ =
    [⟨0, 0x2000⟩, ⟨0x1000, 0x3000⟩])] at h
  rw [pairwiseDisjoint, List.pairwise_cons] at h
  exact h.1 ⟨0x1000, 0x3000⟩ (by simp) 0x1000 (by decide)

/-- Claim C4 (amended): for every input list of *pairwise-disjoint* frame
ranges and every well-formed reserved range, `cut_region` returns a list of
pairwise-disjoint ranges whose union, as a set of frames, equals the union
of the input ranges minus the frames of the reserved range. (The original
claim fails when input ranges overlap: the overlap survives into the
output.) -/
theorem claim_C4 :
    ∀ (regions : List Region) (reserved_region : Region),
      reserved_region.wf → pairwiseDisjoint regions →
      pairwiseDisjoint (cut_region regions reserved_region) ∧
      ∀ a, covers (cut_region regions reserved_region) a ↔
        (covers regions a ∧ ¬ reserved_region.contains a) := by
  intro rs k hk hd
  exact ⟨cut_region_pairwise rs k hk hd, fun a => covers_cut_region rs k hk a⟩

/-- Witness for C4 at a concrete input: cutting `[0x1000, 0x4000)` by
`[0x2000, 0x3000)`. -/
theorem claim_C4_witness :
    pairwiseDisjoint (cut_region [⟨0x1000, 0x4000⟩] ⟨0x2000, 0x3000⟩) ∧
    ∀ a, covers (cut_region [⟨0x1000, 0x4000⟩] ⟨0x2000, 0x3000⟩) a ↔
      (covers [⟨0x1000, 0x4000⟩] a ∧ ¬ Region.contains ⟨0x2000, 0x3000⟩ a) :=
  claim_C4 [⟨0x1000, 0x4000⟩] ⟨0x2000, 0x3000⟩ (by decide)
    (by simp [pairwiseDisjoint])

/-- Counterexample for C7: cutting by the empty range `[0x1000, 0x1000)`
does not return the input list unchanged — it splits the region
`[0, 0x2000)` into two adjacent pieces at `0x1000`. -/
theorem claim_C7_counterexample :
    cut_region [⟨0, 0x2000⟩] ⟨0x1000, 0x1000⟩ = [⟨0, 0x1000⟩, ⟨0x1000, 0x2000⟩] ∧
    cut_region [⟨0, 0x2000⟩] ⟨0x1000, 0x1000⟩ ≠ [⟨0, 0x2000⟩] :=
  ⟨by decide, by decide⟩

/-- Claim C7 (amended): for every list of frame ranges R and every two
disjoint well-formed reserved ranges A and B,
`cut_region (cut_region R A) B = cut_region (cut_region R B) A`; cutting by
an empty range preserves the covered frame set (but may split a region in
place into two adjacent pieces, so the list need not be unchanged); and for
every well-formed range r, `cut_region [r] r = []`. -/
theorem claim_C7 :
    ∀ (regions : List Region) (a b r : Region) (x : Nat),
      (a.wf → b.wf → regionDisjoint a b →
        cut_region (cut_region regions a) b = cut_region (cut_region regions b) a) ∧
      (∀ y, covers (cut_region regions ⟨x, x⟩) y ↔ covers regions y) ∧
      (r.wf → cut_region [r] r = []) := by
  intro rs a b r x
  refine ⟨fun ha hb hd => cut_region_comm rs a b ha hb hd, ?_, ?_⟩
  · intro y
    have hempty : ¬ Region.contains ⟨x, x⟩ y := by
      simp only [Region.contains]
      omega
    rw [covers_cut_region rs ⟨x, x⟩ (le_refl x) y]
    tauto
  · intro hr
    unfold Region.wf at hr
    simp only [cut_region_cons, cut_region_nil, List.append_nil]
    unfold cut_one
    split_ifs <;> first | rfl | (exfalso; omega)

/-- Witness for C7 at concrete inputs: disjoint cuts of `[0, 0x3000)`
commute, cutting by the empty range `[5, 5)` preserves coverage, and
cutting `[0, 0x1000)` by itself empties the list. -/
theorem claim_C7_witness :
    (cut_region (cut_region [⟨0, 0x3000⟩] ⟨0, 0x1000⟩) ⟨0x2000, 0x3000⟩ =
        cut_region (cut_region [⟨0, 0x3000⟩] ⟨0x2000, 0x3000⟩) ⟨0, 0x1000⟩) ∧
    (∀ y, covers (cut_region [⟨0, 0x3000⟩] ⟨5, 5⟩) y ↔ covers [⟨0, 0x3000⟩] y) ∧
    cut_region [(⟨0, 0x1000⟩ : Region)] ⟨0, 0x1000⟩ = [] := by
  obtain ⟨h1, h2, h3⟩ := claim_C7 [⟨0, 0x3000⟩] ⟨0, 0x1000⟩ ⟨0x2000, 0x3000⟩ ⟨0, 0x1000⟩ 5
  refine ⟨h1 (by decide) (by decide) ?_, h2, h3 (by decide)⟩
  intro y
  simp only [Region.contains]
  omega

/-- Claim C10: for every input list and well-formed reserved range,
`cut_region` replaces each input region in place (concatenating, in input
order, the pieces of each region), each region yields at most two pieces,
every piece stays within the bounds of its source region, and exactly two
pieces appear precisely when the region strictly contains the reserved
range on both sides. -/
theorem claim_C10 :
    ∀ (regions : List Region) (reserved_region : Region),
      reserved_region.wf →
      (cut_region regions reserved_region =
        (regions.map (fun r => cut_one r reserved_region)).flatten) ∧
      ∀ r : Region,
        (cut_one r reserved_region).length ≤ 2 ∧
        (∀ p ∈ cut_one r reserved_region, r.start ≤ p.start ∧ p.stop ≤ r.stop) ∧
        ((cut_one r reserved_region).length = 2 ↔
          r.start < reserved_region.start ∧ reserved_region.stop < r.stop) := by
  intro rs k hk
  constructor
  · induction rs with
    | nil => simp
    | cons r rest ih => simp [ih]
  · intro r
    refine ⟨?_, cut_one_bounds r k hk, ?_⟩
    · unfold cut_one
      split_ifs <;> simp
    · unfold Region.wf at hk
      unfold cut_one
      split_ifs <;> simp <;> omega

/-- Witness for C10 at a concrete input: cutting `[0, 0x3000)` by the
strictly contained range `[0x1000, 0x2000)`. -/
theorem claim_C10_witness :
    (cut_region [⟨0, 0x3000⟩] ⟨0x1000, 0x2000⟩ =
        ([(⟨0, 0x3000⟩ : Region)].map (fun r => cut_one r ⟨0x1000, 0x2000⟩)).flatten) ∧
    ((cut_one ⟨0, 0x3000⟩ ⟨0x1000, 0x2000⟩).length ≤ 2 ∧
      (∀ p ∈ cut_one ⟨0, 0x3000⟩ ⟨0x1000, 0x2000⟩,
        (⟨0, 0x3000⟩ : Region).start ≤ p.start ∧ p.stop ≤ (⟨0, 0x3000⟩ : Region).stop) ∧
      ((cut_one ⟨0, 0x3000⟩ ⟨0x1000, 0x2000⟩).length = 2 ↔
        (⟨0, 0x3000⟩ : Region).start < (⟨0x1000, 0x2000⟩ : Region).start ∧
          (⟨0x1000, 0x2000⟩ : Region).stop < (⟨0, 0x3000⟩ : Region).stop)) := by
  obtain ⟨h1, h2⟩ := claim_C10 [⟨0, 0x3000⟩] ⟨0x1000, 0x2000⟩ (by decide)
  exact ⟨h1, h2 ⟨0, 0x3000⟩⟩

/-! ## Syscall dispatch (`src/os/kernel/src/syscall/syscall_dispatcher.rs`)

The trampoline `syscall_handler` bounds-checks the id in `rax` with
`cmp rax, NUM_SYSCALLS; jge syscall_abort` and otherwise calls
`syscall_disp`, which calls `[SYSCALL_TABLE + 8 * rax]`. -/

/-- `NUM_SYSCALLS`: the `SYSCALL_TABLE` initializer lists exactly three
handlers (`sys_thread_switch`, `sys_thread_sleep`, `sys_thread_exit`). -/
def NUM_SYSCALLS : Nat := 3

/-- A 64-bit register value read as the signed integer the CPU compares with
`cmp`/`jge`. -/
def toSigned64 (x : Nat) : Int :=
  if x % 2 ^ 64 < 2 ^ 63 then ((x % 2 ^ 64 : Nat) : Int)
  else ((x % 2 ^ 64 : Nat) : Int) - 2 ^ 64

/-- Where the trampoline goes after the bounds check: through the table
(`call syscall_disp` → `call [SYSCALL_TABLE + 8 * rax]`) or to
`syscall_abort` (which panics with the id and does not return). -/
inductive SyscallPath where
  | table (id : Nat)
  | abort (id : Nat)
deriving DecidableEq, Repr

/-- The bounds check of `syscall_handler`:
`cmp rax, NUM_SYSCALLS; jge syscall_abort`. `jge` branches on the *signed*
comparison `rax ≥ NUM_SYSCALLS`. -/
def syscall_handler_path (rax : Nat) : SyscallPath :=
  if (NUM_SYSCALLS : Int) ≤ toSigned64 rax then SyscallPath.abort (rax % 2 ^ 64)
  else SyscallPath.table (rax % 2 ^ 64)

/-- Claim C1 evaluated at the failing input: for `rax = 2^63` (bit 63 set,
an unsigned value far above `NUM_SYSCALLS`), the signed `jge` does not
branch to `syscall_abort` — the trampoline calls through `SYSCALL_TABLE`
with the out-of-range id. In-range ids still go to the table and ids in
`[NUM_SYSCALLS, 2^63)` to the abort routine, exhibiting the divergence only
for ids with bit 63 set. -/
theorem claim_C1 :
    syscall_handler_path (2 ^ 63) = SyscallPath.table (2 ^ 63) ∧
    NUM_SYSCALLS ≤ 2 ^ 63 ∧
    syscall_handler_path 2 = SyscallPath.table 2 ∧
    syscall_handler_path 3 = SyscallPath.abort 3 := by
  refine ⟨?_, by decide, by decide, by decide⟩
  have h : toSigned64 (2 ^ 63) = -(2 ^ 63 : Int) := by decide
  unfold syscall_handler_path
  rw [h, if_neg (by decide)]
  decide

/-- The sixteen general-purpose registers (values as 64-bit numbers). -/
structure Regs where
  rax : Nat
  rbx : Nat
  rcx : Nat
  rdx : Nat
  rsi : Nat
  rdi : Nat
  rbp : Nat
  rsp : Nat
  r8 : Nat
  r9 : Nat
  r10 : Nat
  r11 : Nat
  r12 : Nat
  r13 : Nat
  r14 : Nat
  r15 : Nat
deriving DecidableEq, Repr

/-- The register block the trampoline prologue pushes on the (still-user)
stack: `push rbx, rcx, rdx, rdi, rsi, r8, r9, r10, r11, r12, r13, r14, r15`
— after the thirteen pushes the stack top holds r15 and the deepest new slot
holds rbx. -/
def syscall_pushed_stack (r : Regs) (user_stack : List Nat) : List Nat :=
  r.r15 :: r.r14 :: r.r13 :: r.r12 :: r.r11 :: r.r10 :: r.r9 :: r.r8 ::
    r.rsi :: r.rdi :: r.rdx :: r.rcx :: r.rbx :: user_stack

/-- The kernel stack right after `mov rsp, rbx; push rcx`: the saved user
rsp sits on top of the thread's kernel stack. -/
def syscall_kernel_stack (user_rsp : Nat) (kernel_stack : List Nat) : List Nat :=
  user_rsp :: kernel_stack

/-- The trampoline epilogue, entered after `syscall_disp` returns with an
arbitrary register file `r` (the handler may clobber any register):
`cli; pop rsp` restores the saved user rsp from the kernel stack, then
thirteen `pop`s restore r15, r14, r13, r12, r11, r10, r9, r8, rsi, rdi,
rdx, rcx, rbx — in exactly the reverse of the push order — from the user
stack, and `sysretq` consumes the restored rcx/r11. -/
def syscall_epilogue (r : Regs) (kernel_stack user_stack : List Nat) : Regs :=
  let ra := { r with rsp := kernel_stack.headD 0 }
  let s0 := user_stack
  let rb := { ra with r15 := s0.headD 0 }
  let s1 := s0.tail
  let rc := { rb with r14 := s1.headD 0 }
  let s2 := s1.tail
  let rd := { rc with r13 := s2.headD 0 }
  let s3 := s2.tail
  let re := { rd with r12 := s3.headD 0 }
  let s4 := s3.tail
  let rf := { re with r11 := s4.headD 0 }
  let s5 := s4.tail
  let rg := { rf with r10 := s5.headD 0 }
  let s6 := s5.tail
  let rh := { rg with r9 := s6.headD 0 }
  let s7 := s6.tail
  let ri := { rh with r8 := s7.headD 0 }
  let s8 := s7.tail
  let rj := { ri with rsi := s8.headD 0 }
  let s9 := s8.tail
  let rk := { rj with rdi := s9.headD 0 }
  let s10 := s9.tail
  let rl := { rk with rdx := s10.headD 0 }
  let s11 := s10.tail
  let rm := { rl with rcx := s11.headD 0 }
  let s12 := s11.tail
  { rm with rbx := s12.headD 0 }

/-- Claim C9: across a syscall dispatch with an in-range id, the rcx (return
RIP) and r11 (RFLAGS) values present at SYSCALL entry are restored verbatim
before `sysretq`; the pops mirror the pushes in reverse order (every saved
register is restored), and the user rsp saved on the kernel stack is the
value loaded back into rsp when switching off the kernel stack. -/
theorem claim_C9 :
    ∀ (entry handler_regs : Regs) (user_stack kernel_stack : List Nat)
      (user_rsp : Nat),
      (syscall_epilogue handler_regs (syscall_kernel_stack user_rsp kernel_stack)
          (syscall_pushed_stack entry user_stack)).rcx = entry.rcx ∧
      (syscall_epilogue handler_regs (syscall_kernel_stack user_rsp kernel_stack)
          (syscall_pushed_stack entry user_stack)).r11 = entry.r11 ∧
      (syscall_epilogue handler_regs (syscall_kernel_stack user_rsp kernel_stack)
          (syscall_pushed_stack entry user_stack)).rsp = user_rsp ∧
      (syscall_epilogue handler_regs (syscall_kernel_stack user_rsp kernel_stack)
          (syscall_pushed_stack entry user_stack)).rbx = entry.rbx ∧
      (syscall_epilogue handler_regs (syscall_kernel_stack user_rsp kernel_stack)
          (syscall_pushed_stack entry user_stack)).rdx = entry.rdx ∧
      (syscall_epilogue handler_regs (syscall_kernel_stack user_rsp kernel_stack)
          (syscall_pushed_stack entry user_stack)).rsi = entry.rsi ∧
      (syscall_epilogue handler_regs (syscall_kernel_stack user_rsp kernel_stack)
          (syscall_pushed_stack entry user_stack)).rdi = entry.rdi ∧
      (syscall_epilogue handler_regs (syscall_kernel_stack user_rsp kernel_stack)
          (syscall_pushed_stack entry user_stack)).r8 = entry.r8 ∧
      (syscall_epilogue handler_regs (syscall_kernel_stack user_rsp kernel_stack)
          (syscall_pushed_stack entry user_stack)).r9 = entry.r9 ∧
      (syscall_epilogue handler_regs (syscall_kernel_stack user_rsp kernel_stack)
          (syscall_pushed_stack entry user_stack)).r10 = entry.r10 ∧
      (syscall_epilogue handler_regs (syscall_kernel_stack user_rsp kernel_stack)
          (syscall_pushed_stack entry user_stack)).r12 = entry.r12 ∧
      (syscall_epilogue handler_regs (syscall_kernel_stack user_rsp kernel_stack)
          (syscall_pushed_stack entry user_stack)).r13 = entry.r13 ∧
      (syscall_epilogue handler_regs (syscall_kernel_stack user_rsp kernel_stack)
          (syscall_pushed_stack entry user_stack)).r14 = entry.r14 ∧
      (syscall_epilogue handler_regs (syscall_kernel_stack user_rsp kernel_stack)
          (syscall_pushed_stack entry user_stack)).r15 = entry.r15 := by
  intro entry handler_regs user_stack kernel_stack user_rsp
  exact ⟨rfl, rfl, rfl, rfl, rfl, rfl, rfl, rfl, rfl, rfl, rfl, rfl, rfl, rfl⟩

/-! ## Threads (`src/os/kernel/src/thread/thread.rs`)

A thread's kernel stack is a `Vec<u64>` with capacity
`(STACK_SIZE_PAGES * PAGE_SIZE) / 8` slots of 8 bytes, indexed from the
bottom (`as_ptr()` = slot 0) with the top-of-stack at slot `capacity - 1`. -/

/-- `STACK_SIZE_PAGES` in thread.rs. -/
def STACK_SIZE_PAGES : Nat := 16

/-- The kernel stack capacity in 8-byte slots,
`(STACK_SIZE_PAGES * PAGE_SIZE) / 8` (pages are 4 KiB). -/
def kernel_stack_capacity : Nat := STACK_SIZE_PAGES * PAGE_SIZE / 8

/-- `Thread::kernel_stack_addr`:
`self.kernel_stack.as_ptr().offset(((capacity - 1) * 8) as isize)`.
The receiver is a `*const u64`, so `offset(n)` advances by `n` *elements*
of 8 bytes each: the returned address is
`stack_base + (capacity - 1) * 8 * 8`. -/
def kernel_stack_addr (stack_base capacity : Nat) : Nat :=
  stack_base + (capacity - 1) * 8 * 8

/-- Claim C2 evaluated at the failing input: with the thread's actual
capacity of 8192 slots (a 65536-byte buffer), `kernel_stack_addr` returns
`base + 524224` — the address of slot `8 * (capacity - 1)`, far outside the
buffer `[base, base + 65536)` — and not the address `base + 65528` of the
highest slot `capacity - 1`. Hence `TSS.rsp0`, which is only ever written
with `kernel_stack_addr` values (in `kickoff_kernel_thread` and
`thread_switch`), never equals the thread's kernel stack top; `start_first`
itself writes no TSS field at all before jumping into the register-restore
epilogue. -/
theorem claim_C2 :
    ∀ stack_base : Nat,
      kernel_stack_addr stack_base kernel_stack_capacity = stack_base + 524224 ∧
      ¬ (kernel_stack_addr stack_base kernel_stack_capacity <
          stack_base + kernel_stack_capacity * 8) ∧
      kernel_stack_addr stack_base kernel_stack_capacity ≠
        stack_base + (kernel_stack_capacity - 1) * 8 := by
  intro b
  unfold kernel_stack_addr kernel_stack_capacity STACK_SIZE_PAGES PAGE_SIZE
  omega

/-- One array-slot write `self.kernel_stack[i] = v`. -/
def stack_write (s : Nat → Nat) (i v : Nat) : Nat → Nat :=
  fun j => if j = i then v else s j

/-- `Thread::prepare_kernel_stack`: the stack is filled with `capacity`
zeros by the push loop, then the top 18 slots are written in source order
(`capacity - 1` down to `capacity - 18`). `kickoff_addr` stands for the
link-time constant `Thread::kickoff_kernel_thread as u64`. The result maps
each slot index to its value. -/
def prepare_kernel_stack (capacity kickoff_addr : Nat) : Nat → Nat :=
  stack_write (stack_write (stack_write (stack_write (stack_write (stack_write
    (stack_write (stack_write (stack_write (stack_write (stack_write (stack_write
    (stack_write (stack_write (stack_write (stack_write (stack_write (stack_write
    (fun _ => 0)
      (capacity - 1) 0x00DEAD00)
      (capacity - 2) kickoff_addr)
      (capacity - 3) 0x202)
      (capacity - 4) 0)
      (capacity - 5) 0)
      (capacity - 6) 0)
      (capacity - 7) 0)
      (capacity - 8) 0)
      (capacity - 9) 0)
      (capacity - 10) 0)
      (capacity - 11) 0)
      (capacity - 12) 0)
      (capacity - 13) 0)
      (capacity - 14) 0)
      (capacity - 15) 0)
      (capacity - 16) 0)
      (capacity - 17) 0)
      (capacity - 18) 0

/-- `old_rsp0` as assigned at the end of `prepare_kernel_stack`:
`stack_addr + ((capacity - 18) * 8)` — byte arithmetic on the buffer base,
i.e. the address of slot `capacity - 18`, the rbp slot. -/
def prepare_old_rsp0 (stack_addr capacity : Nat) : Nat :=
  stack_addr + (capacity - 18) * 8

theorem stack_write_self (s : Nat → Nat) (i v : Nat) : stack_write s i v i = v := by
  unfold stack_write
  simp

theorem stack_write_other (s : Nat → Nat) (i v j : Nat) (h : j ≠ i) :
    stack_write s i v j = s j := by
  unfold stack_write
  simp [h]

theorem writes_zero (s : Nat → Nat) (i j : Nat) (h : s j = 0) :
    stack_write s i 0 j = 0 := by
  unfold stack_write
  split_ifs <;> simp [h]

set_option maxHeartbeats 1000000 in
/-- Claim C8: after `prepare_kernel_stack` on a freshly created thread, the
topmost slot `capacity - 1` holds the sentinel `0x00DEAD00`, slot
`capacity - 2` holds the address of `kickoff_kernel_thread`, slot
`capacity - 3` holds the RFLAGS value `0x202`, the fifteen slots
`capacity - 4` down to `capacity - 18` (r8..r15, rax, rbx, rcx, rdx, rsi,
rdi, rbp) are all zero, and `old_rsp0` is the address of the rbp slot
(`capacity - 18`), inside the kernel stack buffer. -/
theorem claim_C8 :
    ∀ (capacity kickoff_addr stack_addr : Nat), 18 ≤ capacity →
      prepare_kernel_stack capacity kickoff_addr (capacity - 1) = 0x00DEAD00 ∧
      prepare_kernel_stack capacity kickoff_addr (capacity - 2) = kickoff_addr ∧
      prepare_kernel_stack capacity kickoff_addr (capacity - 3) = 0x202 ∧
      (∀ j, capacity - 18 ≤ j → j ≤ capacity - 4 →
        prepare_kernel_stack capacity kickoff_addr j = 0) ∧
      prepare_old_rsp0 stack_addr capacity = stack_addr + (capacity - 18) * 8 ∧
      stack_addr ≤ prepare_old_rsp0 stack_addr capacity ∧
      prepare_old_rsp0 stack_addr capacity < stack_addr + capacity * 8 := by
  intro c kick b hc
  have hread : ∀ j, 18 ≤ c → c - 18 ≤ j → j < c →
      prepare_kernel_stack c kick j =
        (if j = c - 1 then 0x00DEAD00 else if j = c - 2 then kick
          else if j = c - 3 then 0x202 else 0) := by
    intro j hc' hj1 hj2
    unfold prepare_kernel_stack
    by_cases h1 : j = c - 1
    · rw [h1]
      rw [stack_write_other _ _ _ _ (by omega), stack_write_other _ _ _ _ (by omega),
        stack_write_other _ _ _ _ (by omega), stack_write_other _ _ _ _ (by omega),
        stack_write_other _ _ _ _ (by omega), stack_write_other _ _ _ _ (by omega),
        stack_write_other _ _ _ _ (by omega), stack_write_other _ _ _ _ (by omega),
        stack_write_other _ _ _ _ (by omega), stack_write_other _ _ _ _ (by omega),
        stack_write_other _ _ _ _ (by omega), stack_write_other _ _ _ _ (by omega),
        stack_write_other _ _ _ _ (by omega), stack_write_other _ _ _ _ (by omega),
        stack_write_other _ _ _ _ (by omega), stack_write_other _ _ _ _ (by omega),
        stack_write_other _ _ _ _ (by omega), stack_write_self]
      simp
    · by_cases h2 : j = c - 2
      · rw [h2]
        rw [stack_write_other _ _ _ _ (by omega), stack_write_other _ _ _ _ (by omega),
          stack_write_other _ _ _ _ (by omega), stack_write_other _ _ _ _ (by omega),
          stack_write_other _ _ _ _ (by omega), stack_write_other _ _ _ _ (by omega),
          stack_write_other _ _ _ _ (by omega), stack_write_other _ _ _ _ (by omega),
          stack_write_other _ _ _ _ (by omega), stack_write_other _ _ _ _ (by omega),
          stack_write_other _ _ _ _ (by omega), stack_write_other _ _ _ _ (by omega),
          stack_write_other _ _ _ _ (by omega), stack_write_other _ _ _ _ (by omega),
          stack_write_other _ _ _ _ (by omega), stack_write_other _ _ _ _ (by omega),
          stack_write_self]
        have : ¬ (c - 2 = c - 1) := by omega
        simp [this]
      · by_cases h3 : j = c - 3
        · rw [h3]
          rw [stack_write_other _ _ _ _ (by omega), stack_write_other _ _ _ _ (by omega),
            stack_write_other _ _ _ _ (by omega), stack_write_other _ _ _ _ (by omega),
            stack_write_other _ _ _ _ (by omega), stack_write_other _ _ _ _ (by omega),
            stack_write_other _ _ _ _ (by omega), stack_write_other _ _ _ _ (by omega),
            stack_write_other _ _ _ _ (by omega), stack_write_other _ _ _ _ (by omega),
            stack_write_other _ _ _ _ (by omega), stack_write_other _ _ _ _ (by omega),
            stack_write_other _ _ _ _ (by omega), stack_write_other _ _ _ _ (by omega),
            stack_write_other _ _ _ _ (by omega), stack_write_self]
          have e1 : ¬ (c - 3 = c - 1) := by omega
          have e2 : ¬ (c - 3 = c - 2) := by omega
          simp [e1, e2]
        · -- j is one of the fifteen zeroed slots: every zero-write either
          -- hits j with value 0 or misses it, the three non-zero writes all
          -- miss j, and the base stack is all-zero.
          rw [if_neg h1, if_neg h2, if_neg h3]
          apply writes_zero; apply writes_zero; apply writes_zero
          apply writes_zero; apply writes_zero; apply writes_zero
          apply writes_zero; apply writes_zero; apply writes_zero
          apply writes_zero; apply writes_zero; apply writes_zero
          apply writes_zero; apply writes_zero; apply writes_zero
          rw [stack_write_other _ _ _ _ h3, stack_write_other _ _ _ _ h2,
            stack_write_other _ _ _ _ h1]
  refine ⟨?_, ?_, ?_, ?_, rfl, ?_, ?_⟩
  · rw [hread (c - 1) hc (by omega) (by omega)]
    simp
  · rw [hread (c - 2) hc (by omega) (by omega)]
    have e1 : ¬ (c - 2 = c - 1) := by omega
    simp [e1]
  · rw [hread (c - 3) hc (by omega) (by omega)]
    have e1 : ¬ (c - 3 = c - 1) := by omega
    have e2 : ¬ (c - 3 = c - 2) := by omega
    simp [e1, e2]
  · intro j hj1 hj2
    rw [hread j hc hj1 (by omega)]
    have e1 : ¬ (j = c - 1) := by omega
    have e2 : ¬ (j = c - 2) := by omega
    have e3 : ¬ (j = c - 3) := by omega
    simp [e1, e2, e3]
  · unfold prepare_old_rsp0
    omega
  · unfold prepare_old_rsp0
    omega

/-- Witness for C8 with the source's actual capacity (8192 slots, 16 pages
of 8-byte slots) and concrete kickoff address and buffer base. -/
theorem claim_C8_witness :
    prepare_kernel_stack 8192 0x123456 (8192 - 1) = 0x00DEAD00 ∧
    prepare_kernel_stack 8192 0x123456 (8192 - 2) = 0x123456 ∧
    prepare_kernel_stack 8192 0x123456 (8192 - 3) = 0x202 ∧
    (∀ j, 8192 - 18 ≤ j → j ≤ 8192 - 4 →
      prepare_kernel_stack 8192 0x123456 j = 0) ∧
    prepare_old_rsp0 0x500000 8192 = 0x500000 + (8192 - 18) * 8 ∧
    0x500000 ≤ prepare_old_rsp0 0x500000 8192 ∧
    prepare_old_rsp0 0x500000 8192 < 0x500000 + 8192 * 8 :=
  claim_C8 8192 0x123456 0x500000 (by decide)

end HhuTosr
